import Mathlib

/-!
Verification development for the namespaced metadata snapshotter
(`metadata/snapshot.go`): a transactional metadata overlay in front of a
content-addressed snapshot driver, with per-namespace records, a backend-key
translator, and mark-and-sweep garbage collection.

The Go source is embedded shallowly:
* bolt buckets become association lists (`assocLookup` / `assocUpd` /
  `assocErase`); the per-bucket monotonic sequence is a `Nat` field;
* `snapshots.Info` and the per-record bucket contents become `Info` / `Record`;
* each facade operation's transaction body becomes a pure function
  `SnapBucket → Except SErr (SnapBucket × α)`, wrapped by `runTx`, which
  models bolt's rollback-on-error;
* the backing driver is an external collaborator and enters as function
  parameters (`dstat`, `dprep`, `dcommit`, `rm`);
* wall-clock time is a `Nat` parameter where an operation stamps timestamps.
-/

set_option maxHeartbeats 1000000

namespace SnapMeta

/-- Association-list lookup: models `bolt.Bucket.Bucket(key)` / `Get(key)` and
Go map reads. -/
def assocLookup {α : Type} : List (String × α) → String → Option α
  | [], _ => none
  | (k, v) :: rest, key => if k = key then some v else assocLookup rest key

/-- Association-list update: models `bolt.Bucket.Put` / `CreateBucket` /
Go map writes (replaces the binding for `key`, or appends it). -/
def assocUpd {α : Type} : List (String × α) → String → α → List (String × α)
  | [], key, v => [(key, v)]
  | (k, w) :: rest, key, v =>
    if k = key then (key, v) :: rest else (k, w) :: assocUpd rest key v

/-- Association-list deletion: models `bolt.Bucket.DeleteBucket` / `Delete`. -/
def assocErase {α : Type} : List (String × α) → String → List (String × α)
  | [], _ => []
  | (k, v) :: rest, key =>
    if k = key then assocErase rest key else (k, v) :: assocErase rest key

/-- Label maps (`map[string]string`); `none` at the use sites below stands for
a nil Go map, `some l` for an allocated map with entries `l`. -/
abbrev Labels := List (String × String)

/-- Go map read `m[k]` with the zero value: `""` when the map is nil or has
no entry for `k`. -/
def goIndex (l : Option Labels) (k : String) : String :=
  (assocLookup (l.getD []) k).getD ("")

/-- `snapshots.Info`: `kind` stands for the driver-owned fields (`Kind`) the
metadata layer never touches. -/
structure Info where
  kind : Nat := 0
  name : String := ""
  parent : String := ""
  labels : Option Labels := none
  created : Nat := 0
  updated : Nat := 0
deriving DecidableEq, Repr

/-- One snapshot record bucket: the values stored under a snapshot's name in
its namespace's snapshotter bucket (`bucketKeyName`, `bucketKeyParent`,
timestamps, labels, and the children sub-bucket). -/
structure Record where
  bkey : String
  parent : String := ""
  created : Nat := 0
  updated : Nat := 0
  labels : Option Labels := none
  children : List String := []
deriving DecidableEq, Repr

/-- A `(namespace, snapshotter-name)` bucket: the bolt sequence counter plus
one record per user-visible snapshot name. -/
structure SnapBucket where
  seq : Nat := 0
  records : List (String × Record) := []
deriving DecidableEq, Repr

/-- The store restricted to one snapshotter name: namespace → bucket. -/
abbrev DB := List (String × SnapBucket)

/-- Driver-side error kinds distinguished by the code
(`errdefs.IsNotFound`, `errdefs.IsFailedPrecondition`, anything else). -/
inductive DErr
  | notFound
  | failedPrecondition
  | internal
deriving DecidableEq, Repr

/-- Metadata-layer error kinds (`errdefs` taxonomy), with `driver e` for an
error surfaced verbatim from the backing driver. -/
inductive SErr
  | notFound
  | alreadyExists
  | invalidArgument
  | failedPrecondition
  | driver (e : DErr)
deriving DecidableEq, Repr

/-- Driver mount descriptors, opaque to the metadata layer. -/
abbrev Mounts := List String

/-- The decimal digit character for `d < 10`. -/
def digitChar (d : Nat) : Char := Char.ofNat (48 + d)

/-- Decimal rendering of a natural number, most significant digit first:
the `%d` verb of `fmt.Sprintf`. -/
def natToDec (n : Nat) : List Char :=
  if _h : n < 10 then [digitChar n]
  else natToDec (n / 10) ++ [digitChar (n % 10)]
termination_by n
decreasing_by
  exact Nat.div_lt_self (by omega) (by omega)

/-- `createKey` (snapshot.go:54): `fmt.Sprintf("%s/%d/%s", namespace, id, key)`. -/
def createKey (id : Nat) (ns key : String) : String :=
  ns ++ "/" ++ String.mk (natToDec id) ++ "/" ++ key

/-- `overlayInfo` (snapshot.go:225): copies name, timestamps and parent from
the local (metadata) record onto the driver-reported info.  For labels the
source does: if the driver info's map is nil, take the local map; otherwise
it runs `for k, v := range overlay.Labels { overlay.Labels[k] = v }` — a
self-assignment into the *overlay* map — so the returned info keeps the
driver's label map unchanged. -/
def overlayInfo (info overlay : Info) : Info :=
  let merged : Option Labels :=
    match info.labels with
    | none => overlay.labels
    | some l => some l
  { info with
    name := overlay.name
    created := overlay.created
    updated := overlay.updated
    parent := overlay.parent
    labels := merged }

/-- The `snapshots.Info` a record's bucket contents denote (`Name`, `Parent`,
timestamps, labels; driver-owned fields left at their zero values), as built
by `Stat`, `Update` and `Walk` before overlaying. -/
def recordInfo (name : String) (r : Record) : Info :=
  { name := name
    parent := r.parent
    created := r.created
    updated := r.updated
    labels := r.labels }

/-- `validateSnapshot` (snapshot.go:606): label-syntax validity is delegated
to the external `labels.Validate` collaborator, taken here as the parameter
`valid`; the whole label set must validate. -/
def validateLabels (valid : String → String → Bool) (l : Option Labels) : Bool :=
  (l.getD []).all (fun kv => valid kv.1 kv.2)

/-- `update(ctx, db, fn)` / `view`: runs a transaction body over the bucket;
on error bolt rolls the transaction back, leaving the store unchanged. -/
def runTx {α : Type} (b : SnapBucket)
    (body : SnapBucket → Except SErr (SnapBucket × α)) :
    SnapBucket × Except SErr α :=
  match body b with
  | .error e => (b, .error e)
  | .ok (b2, a) => (b2, .ok a)

/-- `snapshotter.Stat` (snapshot.go:94) on one namespace's bucket: locate the
record (NotFound if absent), `Stat` the driver at its backend key, and return
the overlay of the driver info with the local record. -/
def statOp (b : SnapBucket) (dstat : String → Except DErr Info) (key : String) :
    Except SErr Info :=
  match assocLookup b.records key with
  | none => .error .notFound
  | some r =>
    match dstat r.bkey with
    | .error e => .error (.driver e)
    | .ok info => .ok (overlayInfo info (recordInfo key r))

/-- `strings.HasPrefix s pre`, on the characters of the strings. -/
def goHasLead (s pre : String) : Bool :=
  pre.data.isPrefixOf s.data

/-- Byte-lexicographic order on names, as bolt's byte-ordered cursor yields
them, on the characters of the strings. -/
def charListLt : List Char → List Char → Bool
  | [], [] => false
  | [], _ :: _ => true
  | _ :: _, [] => false
  | a :: as, b :: bs => if a < b then true else if a = b then charListLt as bs else false

/-- Byte-lexicographic order of two names. -/
def nameLt (a b : String) : Bool := charListLt a.data b.data

/-- The field-path handling of `snapshotter.Update` (snapshot.go:176-194):
a path with the `labels.` lead sets that single label key to `info.Labels[k]`
(allocating the local map when nil); the bare `labels` path replaces the
whole local map with the supplied one; any other path is InvalidArgument. -/
def applyFieldPaths (infoLabels : Option Labels) :
    Option Labels → List String → Except SErr (Option Labels)
  | cur, [] => .ok cur
  | cur, p :: rest =>
    if goHasLead p ("labels.") then
      applyFieldPaths infoLabels
        (some (assocUpd (cur.getD []) (p.drop 7) (goIndex infoLabels (p.drop 7)))) rest
    else if p = ("labels") then
      applyFieldPaths infoLabels infoLabels rest
    else .error .invalidArgument

/-- The transaction body of `snapshotter.Update` (snapshot.go:157-213): load
the record (NotFound if absent), apply the field paths to its labels (no
field paths means full label replacement), validate, stamp `updated := now`
(created unchanged), persist.  Returns the new bucket, the `local` info used
for the overlay, and the backend key read inside the transaction. -/
def updateTx (valid : String → String → Bool) (now : Nat) (info : Info)
    (fieldpaths : List String) (b : SnapBucket) :
    Except SErr (SnapBucket × (Info × String)) :=
  match assocLookup b.records info.name with
  | none => .error .notFound
  | some r =>
    match (if fieldpaths.isEmpty then Except.ok info.labels
           else applyFieldPaths info.labels r.labels fieldpaths) with
    | .error e => .error e
    | .ok newLabels =>
      if validateLabels valid newLabels then
        let r2 : Record := { r with labels := newLabels, updated := now }
        .ok ({ b with records := assocUpd b.records info.name r2 },
             (recordInfo info.name r2, r.bkey))
      else .error .invalidArgument

/-- `snapshotter.Update` (snapshot.go:138): empty name is InvalidArgument; the
metadata transaction commits first, then the driver is `Stat`-ed (outside the
transaction) and the overlaid info is returned. -/
def updateOp (valid : String → String → Bool) (now : Nat)
    (dstat : String → Except DErr Info) (info : Info) (fieldpaths : List String)
    (b : SnapBucket) : SnapBucket × Except SErr Info :=
  if info.name = ("") then (b, .error .invalidArgument)
  else
    match runTx b (fun b0 => updateTx valid now info fieldpaths b0) with
    | (b1, .error e) => (b1, .error e)
    | (b1, .ok (loc, bkey)) =>
      match dstat bkey with
      | .error e => (b1, .error (.driver e))
      | .ok dinfo => (b1, .ok (overlayInfo dinfo loc))

/-- Adding a key to a children sub-bucket (`CreateBucketIfNotExists` plus
`Put(key, nil)`): set semantics. -/
def addChild (l : List String) (key : String) : List String :=
  if l.contains key then l else l ++ [key]

/-- Deleting a key from a children sub-bucket. -/
def removeChild (l : List String) (key : String) : List String :=
  l.filter (fun c => c ≠ key)

/-- The transaction body of `snapshotter.createSnapshot` (snapshot.go:286-349):
create the record bucket (AlreadyExists on name collision), acquire the lease
(external, not modelled), link under the parent if given (NotFound if the
parent record is absent), allocate a sequence number, derive the backend key,
write timestamps and labels, and call the driver's `View`/`Prepare` — still
inside the transaction — via `dprep readonly bkey bparent`. -/
def createSnapshotTx (ns : String) (now : Nat) (key parent : String)
    (base : Option Labels) (readonly : Bool)
    (dprep : Bool → String → String → Except DErr Mounts)
    (b : SnapBucket) : Except SErr (SnapBucket × Mounts) :=
  match assocLookup b.records key with
  | some _ => .error .alreadyExists
  | none =>
    let step : Except SErr (List (String × Record) × String) :=
      if parent = ("") then .ok (b.records, "")
      else
        match assocLookup b.records parent with
        | none => .error .notFound
        | some p =>
          .ok (assocUpd b.records parent
                { p with children := addChild p.children key }, p.bkey)
    match step with
    | .error e => .error e
    | .ok (recs, bparent) =>
      let sid := b.seq + 1
      let bkey := createKey sid ns key
      let newRec : Record :=
        { bkey := bkey, parent := parent, created := now, updated := now, labels := base }
      match dprep readonly bkey bparent with
      | .error e => .error (.driver e)
      | .ok m => .ok ({ seq := sid, records := assocUpd recs key newRec }, m)

/-- `snapshotter.createSnapshot` (snapshot.go:265), the common path of
`Prepare` and `View`: the option functions build `base` (its labels), which
is validated before the transaction; any failure aborts the whole
transaction. -/
def createSnapshotOp (ns : String) (valid : String → String → Bool) (now : Nat)
    (key parent : String) (base : Option Labels) (readonly : Bool)
    (dprep : Bool → String → String → Except DErr Mounts)
    (b : SnapBucket) : SnapBucket × Except SErr Mounts :=
  if validateLabels valid base then
    runTx b (createSnapshotTx ns now key parent base readonly dprep)
  else (b, .error .invalidArgument)

/-- The transaction body of `snapshotter.Commit` (snapshot.go:375-451): create
the record bucket for `name` (AlreadyExists if taken), locate the active
record at `key` (NotFound if absent), allocate a fresh sequence number and
derive the new backend name, transfer the parent link (dropping `key` from
and adding `name` to the parent's children), stamp both timestamps with the
commit time, write the labels built from the commit's options, delete the old
`key` bucket, and call the driver's `Commit(nameKey, bkey)` in-transaction. -/
def commitTx (ns : String) (now : Nat) (name key : String) (base : Option Labels)
    (dcommit : String → String → Option DErr) (b : SnapBucket) :
    Except SErr (SnapBucket × Unit) :=
  match assocLookup b.records name with
  | some _ => .error .alreadyExists
  | none =>
    match assocLookup b.records key with
    | none => .error .notFound
    | some r =>
      let sid := b.seq + 1
      let nameKey := createKey sid ns name
      let step : Except SErr (List (String × Record)) :=
        if r.parent = ("") then .ok b.records
        else
          match assocLookup b.records r.parent with
          | none => .error .notFound
          | some p =>
            .ok (assocUpd b.records r.parent
                  { p with children := addChild (removeChild p.children key) name })
      match step with
      | .error e => .error e
      | .ok recs =>
        let newRec : Record :=
          { bkey := nameKey, parent := r.parent, created := now, updated := now,
            labels := base }
        match dcommit nameKey r.bkey with
        | some e => .error (.driver e)
        | none => .ok ({ seq := sid, records := assocErase (assocUpd recs name newRec) key }, ())

/-- `snapshotter.Commit` (snapshot.go:355): labels from the options are
validated before the transaction. -/
def commitOp (ns : String) (valid : String → String → Bool) (now : Nat)
    (name key : String) (base : Option Labels)
    (dcommit : String → String → Option DErr) (b : SnapBucket) :
    SnapBucket × Except SErr Unit :=
  if validateLabels valid base then runTx b (commitTx ns now name key base dcommit)
  else (b, .error .invalidArgument)

/-- The transaction body of `snapshotter.Remove` (snapshot.go:464-508):
NotFound if the record is absent, FailedPrecondition if it has any child,
otherwise unlink it from its parent's children and delete its bucket (the
process-wide dirty marker set on success is outside this model). -/
def removeTx (b : SnapBucket) (key : String) : Except SErr (SnapBucket × Unit) :=
  match assocLookup b.records key with
  | none => .error .notFound
  | some r =>
    if r.children.isEmpty then
      let step : Except SErr (List (String × Record)) :=
        if r.parent = ("") then .ok b.records
        else
          match assocLookup b.records r.parent with
          | none => .error .notFound
          | some p =>
            .ok (assocUpd b.records r.parent
                  { p with children := removeChild p.children key })
      match step with
      | .error e => .error e
      | .ok recs => .ok ({ b with records := assocErase recs key }, ())
    else .error .failedPrecondition

/-- `snapshotter.Remove` (snapshot.go:455). -/
def removeOp (b : SnapBucket) (key : String) : SnapBucket × Except SErr Unit :=
  runTx b (fun b0 => removeTx b0 key)

/-- Errors a `Walk` can surface: a non-NotFound driver `Stat` error, or an
error returned by the visitor. -/
inductive WErr
  | driver (e : DErr)
  | visitor (msg : String)
deriving DecidableEq, Repr

/-- The visiting half of one `Walk` round (snapshot.go:581-593): driver `Stat`
per collected backend key, entries the driver reports NotFound silently
skipped, any other driver error or visitor error aborts; returns the infos
passed to the visitor, in order. -/
def processBatch (dstat : String → Except DErr Info) (fn : Info → Option String) :
    List (String × Record) → Except WErr (List Info)
  | [] => .ok []
  | (name, r) :: rest =>
    match dstat r.bkey with
    | .error .notFound => processBatch dstat fn rest
    | .error e => .error (.driver e)
    | .ok dinfo =>
      let oi := overlayInfo dinfo (recordInfo name r)
      match fn oi with
      | some msg => .error (.visitor msg)
      | none =>
        match processBatch dstat fn rest with
        | .error e => .error e
        | .ok l => .ok (oi :: l)

/-- `batchSize` (snapshot.go:523). -/
def batchSize : Nat := 100

/-- The paginated loop of `snapshotter.Walk` (snapshot.go:528-601) over a
fixed bucket.  `rem` is the cursor's remaining (byte-ordered) suffix of the
bucket: each round opens a fresh read transaction, collects up to `batchSize`
records from the cursor — `lastKey`, the first uncollected name, corresponds
to `rem.drop batchSize` — closes the transaction, visits the collected
records, and stops when the cursor was exhausted (`lastKey == ""`, i.e. at
most `batchSize` records remained).  Returns the infos visited per
transaction round. -/
def walkLoop (dstat : String → Except DErr Info) (fn : Info → Option String)
    (rem : List (String × Record)) : Except WErr (List (List Info)) :=
  match processBatch dstat fn (rem.take batchSize) with
  | .error e => .error e
  | .ok g =>
    if _h : rem.length ≤ batchSize then .ok [g]
    else
      match walkLoop dstat fn (rem.drop batchSize) with
      | .error e => .error e
      | .ok gs => .ok (g :: gs)
termination_by rem.length
decreasing_by
  simp only [List.length_drop, batchSize]
  omega

/-- In-memory GC tree node (`treeNode`, snapshot.go:698).  `walkTree` keys
every node by its driver-reported name, so a `*treeNode` pointer is exactly
an arena entry and children are held by name. -/
structure TNode where
  info : Info := {}
  remove : Bool := false
  children : List String := []
deriving DecidableEq, Repr

/-- The mark phase of `snapshotter.garbageCollect` (snapshot.go:635-677):
collect every non-empty backend key referenced by a record of this
snapshotter in any namespace. -/
def collectSeen (db : DB) : List String :=
  (db.map (fun nb =>
    nb.2.records.filterMap (fun nr =>
      if nr.2.bkey.isEmpty then none else some nr.2.bkey))).flatten

/-- One visitor step of `snapshotter.walkTree` (snapshot.go:708-731): fetch or
create the node for the reported name, set its `remove` flag — true iff the
name is absent from the live set — and its info, then register it as a root
(empty parent) or link it under its parent, creating a placeholder parent
node when the parent was not yet reported. -/
def walkTreeStep (seen : List String) (acc : List (String × TNode) × List String)
    (info : Info) : List (String × TNode) × List String :=
  let node := (assocLookup acc.1 info.name).getD {}
  let node := { node with remove := !(seen.contains info.name), info := info }
  let nodes := assocUpd acc.1 info.name node
  if info.parent = ("") then (nodes, acc.2 ++ [info.name])
  else
    let p := (assocLookup nodes info.parent).getD {}
    (assocUpd nodes info.parent { p with children := p.children ++ [info.name] }, acc.2)

/-- `snapshotter.walkTree` (snapshot.go:704): builds the in-memory forest from
the driver's own (authoritative) node list; returns the arena and the root
names in discovery order. -/
def walkTree (seen : List String) (infos : List Info) :
    List (String × TNode) × List String :=
  infos.foldl (walkTreeStep seen) ([], [])

/-- Result of a (partial) sweep: final driver state, the names on which the
driver's `Remove` was invoked (in invocation order), and the aborting error,
if any. -/
structure PruneOut (σ : Type) where
  st : σ
  trace : List String
  err : Option DErr
deriving DecidableEq, Repr

/-- Sequential pruning of a list of sibling nodes by `f` — the shape shared
by the loop over a node's children inside `pruneBranch` (snapshot.go:739-743)
and by the loop over the roots in `garbageCollect` (snapshot.go:689-693):
process in order, stop at the first error (which is returned), accumulate the
`Remove`-invocation trace. -/
def pruneSeq {σ : Type} (f : σ → String → Option (PruneOut σ)) :
    σ → List String → Option (PruneOut σ)
  | st, [] => some ⟨st, [], none⟩
  | st, c :: cs =>
    match f st c with
    | none => none
    | some out =>
      match out.err with
      | some _ => some out
      | none =>
        match pruneSeq f out.st cs with
        | none => none
        | some out2 => some ⟨out2.st, out.trace ++ out2.trace, out2.err⟩

/-- `snapshotter.pruneBranch` (snapshot.go:738): first prune the children
(one recursion level deeper), then — if the node is marked `remove` — invoke
the driver's `Remove`; a FailedPrecondition result is logged and tolerated,
any other error aborts the sweep with that error.  The driver is `rm` over
an abstract driver state `σ`.  `fuel` bounds the recursion depth of the Go
original, which has no cycle guard: `none` means the recursion depth
exceeded `fuel` (the Go recursion would run that deep, or forever). -/
def pruneBranch {σ : Type} (rm : σ → String → σ × Option DErr)
    (nodes : List (String × TNode)) :
    Nat → σ → String → Option (PruneOut σ)
  | 0, _, _ => none
  | fuel+1, st, name =>
    let node := (assocLookup nodes name).getD {}
    match pruneSeq (fun st2 c => pruneBranch rm nodes fuel st2 c) st node.children with
    | none => none
    | some out =>
      match out.err with
      | some _ => some out
      | none =>
        if node.remove then
          match rm out.st name with
          | (st2, none) => some ⟨st2, out.trace ++ [name], none⟩
          | (st2, some .failedPrecondition) => some ⟨st2, out.trace ++ [name], none⟩
          | (st2, some e) => some ⟨st2, out.trace ++ [name], some e⟩
        else some out

/-- `snapshotter.garbageCollect` (snapshot.go:620) without its timing shell:
mark (collect the cross-namespace live set), discover (build the forest from
the driver-reported infos) and sweep each root with `pruneBranch`. -/
def gcRun {σ : Type} (db : DB) (infos : List Info)
    (rm : σ → String → σ × Option DErr) (fuel : Nat) (st : σ) :
    Option (PruneOut σ) :=
  let f := walkTree (collectSeen db) infos
  pruneSeq (fun st2 n => pruneBranch rm f.1 fuel st2 n) st f.2

/-- Modelled from the spec: the backing driver's node store used to
instantiate the GC scenarios — the driver is an external collaborator (§6)
whose `remove(key)` "may fail with FailedPrecondition", and §1 requires
"tolerating drivers that cannot synchronously remove in-use resources".
Nodes are name → parent-name; removing a node that still has children fails
with FailedPrecondition, removing an absent node is NotFound. -/
abbrev DriverSt := List (String × String)

/-- Modelled from the spec: driver-side `remove` over `DriverSt` (see there). -/
def driverRemove (st : DriverSt) (name : String) : DriverSt × Option DErr :=
  match assocLookup st name with
  | none => (st, some .notFound)
  | some _ =>
    if st.any (fun np => np.2 = name) then (st, some .failedPrecondition)
    else (assocErase st name, none)

/-- Sequencing helper for `specSweepAt` (see there). -/
def specSweepSeq (f : String → Option (List String)) :
    List String → Option (List String)
  | [] => some []
  | c :: cs =>
    match f c with
    | none => none
    | some tr =>
      match specSweepSeq f cs with
      | none => none
      | some tr2 => some (tr ++ tr2)

/-- Follows the spec's words (§4.3 step 3): the sweep is a post-order —
children before parent — depth-first traversal, and the driver's `Remove` is
invoked exactly on the nodes marked removable, in that traversal order.
Defined independently of `pruneBranch` for comparison with it; `fuel` as
there. -/
def specSweepAt (nodes : List (String × TNode)) :
    Nat → String → Option (List String)
  | 0, _ => none
  | fuel+1, name =>
    let node := (assocLookup nodes name).getD {}
    match specSweepSeq (specSweepAt nodes fuel) node.children with
    | none => none
    | some below => some (below ++ (if node.remove then [name] else []))

/-- The timing skeleton of `snapshotter.garbageCollect` (snapshot.go:620-633):
`t1 := time.Now()` is taken right after the lock is acquired; the deferred
function unlocks, then — when no error occurred — runs the driver's optional
`Cleanup`, and only after it returns sets `d = time.Since(t1)`; `d` stays `0`
on any error.  `markSweepDur` and `cleanupDur` are the wall-clock durations
of the mark+sweep body and of the cleanup call; the result is `d` together
with whether an error was returned. -/
def garbageCollectDur (markSweepDur cleanupDur : Nat)
    (hasCleaner msErr cleanupErr : Bool) : Nat × Bool :=
  if msErr then (0, true)
  else if hasCleaner then
    if cleanupErr then (0, true)
    else (markSweepDur + cleanupDur, false)
  else (markSweepDur, false)

/-- One record is processed by `Walk` without aborting: the driver `Stat`
either reports NotFound (entry skipped) or succeeds and the visitor accepts
the overlaid info. -/
def walkStepOk (dstat : String → Except DErr Info) (fn : Info → Option String)
    (p : String × Record) : Bool :=
  match dstat p.2.bkey with
  | .error .notFound => true
  | .error _ => false
  | .ok d => (fn (overlayInfo d (recordInfo p.1 p.2))).isNone

/-- The error with which `Walk` aborts at one record, if any: a non-NotFound
driver `Stat` error, or the visitor's error on the overlaid info. -/
def walkStepErr (dstat : String → Except DErr Info) (fn : Info → Option String)
    (p : String × Record) : Option WErr :=
  match dstat p.2.bkey with
  | .error .notFound => none
  | .error e => some (.driver e)
  | .ok d =>
    match fn (overlayInfo d (recordInfo p.1 p.2)) with
    | some msg => some (.visitor msg)
    | none => none

/-- The driver `Stat` succeeded. -/
def dstatOk (r : Except DErr Info) : Bool :=
  match r with
  | .ok _ => true
  | .error _ => false

/-- The infos an abort-free walk passes to the visitor, in cursor order: one
per record whose driver `Stat` succeeds (NotFound entries are skipped). -/
def walkVisits (dstat : String → Except DErr Info) :
    List (String × Record) → List Info :=
  List.filterMap (fun p =>
    match dstat p.2.bkey with
    | .ok d => some (overlayInfo d (recordInfo p.1 p.2))
    | .error _ => none)

/-- The records of a bucket appear in strictly increasing byte-lexicographic
name order (bolt's cursor invariant). -/
def sortedNames : List (String × Record) → Bool
  | [] => true
  | [_] => true
  | a :: b :: rest => nameLt a.1 b.1 && sortedNames (b :: rest)

/-- 110 records with two-character names in byte-lexicographic order, each
record's backend key equal to its name: a bucket larger than one `Walk`
batch. -/
def walkRecs : List (String × Record) :=
  ((["a", "b", "c", "d", "e", "f", "g", "h", "i", "j", "k"]).map (fun c1 =>
    ((["0", "1", "2", "3", "4", "5", "6", "7", "8", "9"]).map (fun c2 =>
      (c1 ++ c2, ({ bkey := c1 ++ c2 } : Record)))))).flatten

/-- GC scenario for cross-namespace liveness: namespace `ns2` holds one
record, `other`, whose backend key is `b1` — so `b1` is live — while nothing
references `a1` or `c1`. -/
def c2DB : DB :=
  [(("ns2"), { seq := 9, records := [(("other"), { bkey := "b1" })] })]

/-- Driver-reported node list for the GC scenarios: lineage
`a1 (root) ← b1 ← c1`, node names being driver-level backend keys. -/
def gcInfos : List Info :=
  [{ name := "a1" }, { name := "b1", parent := "a1" }, { name := "c1", parent := "b1" }]

/-- The driver's node store matching `gcInfos`. -/
def gcDriverSt : DriverSt :=
  [(("a1"), ""), (("b1"), "a1"), (("c1"), "b1")]

/-- Concrete Commit/Stat scenario, step 0: one active record `active` with
labels `{k ↦ v0}`, created and last updated at time 1. -/
def c5Bucket0 : SnapBucket :=
  { seq := 1,
    records := [(("active"),
      { bkey := "ns1/1/active", created := 1, updated := 1,
        labels := some [("k", "v0")] })] }

/-- A driver whose `Stat` succeeds with a zero-valued info (nil labels). -/
def c5DStat : String → Except DErr Info := fun _ => Except.ok {}

/-- Step 1: `Update` at time 5 replaces the labels of `active` by `{k ↦ v}`. -/
def c5Bucket1 : SnapBucket :=
  (updateOp (fun _ _ => true) 5 c5DStat
    { name := "active", labels := some [("k", "v")] } [] c5Bucket0).1

/-- Step 2: `Commit(name="release", key="active")` at time 9, with no options
(`base = none`), the driver's `Commit` succeeding. -/
def c5Bucket2 : SnapBucket :=
  (commitOp ("ns1") (fun _ _ => true) 9 ("release") ("active") none
    (fun _ _ => none) c5Bucket1).1

/-! ### Association-list lemmas -/

theorem assocLookup_upd_self {α : Type} (l : List (String × α)) (k : String) (v : α) :
    assocLookup (assocUpd l k v) k = some v := by
  induction l with
  | nil => simp [assocUpd, assocLookup]
  | cons h t ih =>
    obtain ⟨k1, v1⟩ := h
    by_cases hk : k1 = k <;> simp [assocUpd, assocLookup, hk, ih]

theorem assocLookup_upd_ne {α : Type} (l : List (String × α)) (k k2 : String) (v : α)
    (h : k ≠ k2) : assocLookup (assocUpd l k v) k2 = assocLookup l k2 := by
  induction l with
  | nil => simp [assocUpd, assocLookup, h]
  | cons hd t ih =>
    obtain ⟨k1, v1⟩ := hd
    by_cases hk : k1 = k
    · subst hk; simp [assocUpd, assocLookup, h]
    · simp only [assocUpd, if_neg hk, assocLookup]
      by_cases hk2 : k1 = k2 <;> simp [hk2, ih]

theorem assocLookup_erase_self {α : Type} (l : List (String × α)) (k : String) :
    assocLookup (assocErase l k) k = none := by
  induction l with
  | nil => rfl
  | cons hd t ih =>
    obtain ⟨k1, v1⟩ := hd
    by_cases hk : k1 = k
    · simp [assocErase, hk, ih]
    · simp [assocErase, assocLookup, hk, ih]

theorem assocLookup_erase_ne {α : Type} (l : List (String × α)) (k k2 : String)
    (h : k ≠ k2) : assocLookup (assocErase l k) k2 = assocLookup l k2 := by
  induction l with
  | nil => rfl
  | cons hd t ih =>
    obtain ⟨k1, v1⟩ := hd
    by_cases hk : k1 = k
    · subst hk
      have hne : ¬ (k1 = k2) := h
      simp [assocErase, assocLookup, hne, ih]
    · by_cases hk2 : k1 = k2
      · subst hk2
        simp [assocErase, assocLookup, hk]
      · simp [assocErase, assocLookup, hk, hk2, ih]

/-! ### C1 -/

/-- C1: the claim says the overlaid result merges labels so that every local
label appears in the result, local labels taking precedence key-by-key.  The
code does not: with driver labels `{a ↦ x}` and local labels
`{a ↦ y, b ↦ z}`, `overlayInfo` returns the driver's label map unchanged
(name, parent and timestamps do come from the local record) — the merge loop
writes the overlay map into itself (`overlay.Labels[k] = v`), so the local
labels are dropped and local precedence is violated. -/
theorem overlay_drops_local_labels :
    overlayInfo
        { kind := 7, name := "drv", parent := "dp", labels := some [("a", "x")],
          created := 1, updated := 2 }
        { name := "loc", parent := "lp", labels := some [("a", "y"), ("b", "z")],
          created := 3, updated := 4 }
      = { kind := 7, name := "loc", parent := "lp", labels := some [("a", "x")],
          created := 3, updated := 4 } ∧
    assocLookup
        ((overlayInfo
            { labels := some [("a", "x")] }
            { labels := some [("a", "y"), ("b", "z")] }).labels.getD []) ("b")
      = none ∧
    assocLookup
        ((overlayInfo
            { labels := some [("a", "x")] }
            { labels := some [("a", "y"), ("b", "z")] }).labels.getD []) ("a")
      ≠ some ("y") := by
  refine ⟨rfl, rfl, ?_⟩
  decide

/-! ### C4 -/

/-- C4 counterexample: the claim says `garbageCollect` returns the elapsed
duration of the mark-and-sweep phase only, excluding the deferred `Cleanup`.
With a cleaner present and everything succeeding, a mark+sweep that took 2
time units followed by a cleanup that took 5 returns 7, not 2: the deferred
function computes `d = time.Since(t1)` only after `Cleanup` returns. -/
theorem gc_duration_claim_false :
    garbageCollectDur 2 5 true false false = (7, false) ∧ (7 : Nat) ≠ 2 := by
  decide

/-- C4 amended: the duration returned by `garbageCollect` is the elapsed
wall-clock time from the start of the mark phase through the completion of
the deferred `Cleanup` step when the driver has a cleaner (and everything
succeeded) — i.e. it includes the cleanup time; only when the driver has no
cleaner is it the mark+sweep duration alone, and it is `0` whenever an error
is returned (including a failing cleanup). -/
theorem gc_duration_includes_cleanup (ms cu : Nat) :
    garbageCollectDur ms cu true false false = (ms + cu, false) ∧
    garbageCollectDur ms cu false false false = (ms, false) ∧
    (∀ hc ce, garbageCollectDur ms cu hc true ce = (0, true)) ∧
    garbageCollectDur ms cu true false true = (0, true) := by
  refine ⟨rfl, rfl, ?_, rfl⟩
  intro hc ce
  cases hc <;> cases ce <;> rfl

/-! ### C10 -/

/-- C10 counterexample: the claim says no field path can delete a label key.
The bare `labels` field path replaces the whole label map: updating record
`x`, which has label `a ↦ 1`, with `fieldpaths = ["labels"]` and an info
whose label map is empty leaves a record whose label map is empty — the key
`a` has been deleted by a field path. -/
theorem update_labels_claim_false :
    assocLookup
        ((updateOp (fun _ _ => true) 5 (fun _ => Except.ok {})
            { name := "x", labels := some [] } [("labels")]
            { seq := 1,
              records := [(("x"), { bkey := "k1", labels := some [("a", "1")] })] }).1.records)
        ("x")
      = some { bkey := "k1", labels := some [], updated := 5 } ∧
    assocLookup (([("a", "1")] : Labels)) ("a") = some ("1") ∧
    assocLookup (([] : Labels)) ("a") = none := by
  refine ⟨?_, rfl, rfl⟩
  decide

/-- C10 amended: with `fieldpaths = [p]` for a path `p` of the form
`labels.<k>`, where the supplied info's label map has no entry for `k`,
`Update` sets label `k` on the record to the empty string — it neither
deletes the label nor fails (Go's `info.Labels[key]` yields the zero value
`""`); paths of that form never remove a key.  The bare `labels` path, by
contrast, replaces the whole label map with the supplied one and therefore
can drop keys. -/
theorem update_label_path_sets_empty
    (valid : String → String → Bool) (now : Nat) (info : Info) (p k : String)
    (b : SnapBucket) (r : Record)
    (hp1 : goHasLead p ("labels.") = true) (hp2 : p.drop 7 = k)
    (hr : assocLookup b.records info.name = some r)
    (hmiss : assocLookup (info.labels.getD []) k = none)
    (hval : validateLabels valid (some (assocUpd (r.labels.getD []) k (""))) = true) :
    (∃ r2,
      updateTx valid now info [p] b
        = Except.ok
            ({ b with records := assocUpd b.records info.name r2 },
             (recordInfo info.name r2, r.bkey)) ∧
      r2.labels = some (assocUpd (r.labels.getD []) k ("")) ∧
      assocLookup (r2.labels.getD []) k = some ("")) ∧
    (validateLabels valid info.labels = true →
      updateTx valid now info [("labels")] b
        = Except.ok
            ({ b with records :=
                          assocUpd b.records info.name
                            ({ r with labels := info.labels, updated := now }) },
             (recordInfo info.name ({ r with labels := info.labels, updated := now }),
              r.bkey))) := by
  constructor
  · refine ⟨{ r with labels := some (assocUpd (r.labels.getD []) k ("")), updated := now },
      ?_, rfl, assocLookup_upd_self _ _ _⟩
    have hgi : goIndex info.labels k = ("") := by simp [goIndex, hmiss]
    simp [updateTx, hr, applyFieldPaths, hp1, hp2, hgi, hval]
  · intro hv2
    have hlead : goHasLead ("labels") ("labels.") = false := by decide
    simp [updateTx, hr, applyFieldPaths, hlead, hv2]

/-- Witness for the C10 amended theorem at a concrete input: record `x` with
labels `{a ↦ 1}`, path `labels.env`, supplied info lacking `env`. -/
theorem update_label_path_sets_empty_witness :
    ∃ r2,
      updateTx (fun _ _ => true) 5 { name := "x", labels := some [] }
          [("labels.env")]
          { seq := 1,
            records := [(("x"), { bkey := "k1", labels := some [("a", "1")] })] }
        = Except.ok
            ({ seq := 1,
               records := assocUpd
                 [(("x"), { bkey := "k1", labels := some [("a", "1")] })] ("x") r2 },
             (recordInfo ("x") r2, "k1")) ∧
      r2.labels = some (assocUpd ([("a", "1")]) ("env") ("")) ∧
      assocLookup (r2.labels.getD []) ("env") = some ("") := by
  have h := (update_label_path_sets_empty (fun _ _ => true) 5
    { name := "x", labels := some [] } ("labels.env") ("env")
    { seq := 1, records := [(("x"), { bkey := "k1", labels := some [("a", "1")] })] }
    { bkey := "k1", labels := some [("a", "1")] }
    (by decide) (by rfl) (by decide) (by rfl) (by decide)).1
  exact h

/-! ### Decimal rendering: injectivity and slash-freeness -/

theorem natToDec_lt (n : Nat) (h : n < 10) : natToDec n = [digitChar n] := by
  rw [natToDec]
  simp [h]

theorem natToDec_ge (n : Nat) (h : ¬ n < 10) :
    natToDec n = natToDec (n / 10) ++ [digitChar (n % 10)] := by
  rw [natToDec]
  simp [h]

theorem natToDec_ne_nil (n : Nat) : natToDec n ≠ [] := by
  by_cases h : n < 10
  · simp [natToDec_lt n h]
  · simp [natToDec_ge n h]

theorem digitChar_inj : ∀ d1 < 10, ∀ d2 < 10, digitChar d1 = digitChar d2 → d1 = d2 := by
  decide

theorem digitChar_ne_slash : ∀ d < 10, digitChar d ≠ '/' := by
  decide

theorem slash_not_mem_natToDec (n : Nat) : ('/') ∉ natToDec n := by
  induction n using Nat.strong_induction_on with
  | _ n ih =>
    by_cases h : n < 10
    · rw [natToDec_lt n h]
      simp only [List.mem_singleton]
      exact fun hy => digitChar_ne_slash n h hy.symm
    · rw [natToDec_ge n h]
      simp only [List.mem_append, List.mem_singleton]
      rintro (hmem | heq)
      · exact ih (n / 10) (Nat.div_lt_self (by omega) (by omega)) hmem
      · exact digitChar_ne_slash (n % 10) (Nat.mod_lt n (by omega)) heq.symm

theorem concat_eq_concat {α : Type} {xs ys : List α} {a b : α}
    (h : xs ++ [a] = ys ++ [b]) : xs = ys ∧ a = b := by
  have h2 := congrArg List.reverse h
  simp only [List.reverse_append, List.reverse_cons, List.reverse_nil,
    List.nil_append] at h2
  injection h2 with h3 h4
  exact ⟨List.reverse_inj.mp h4, h3⟩

theorem natToDec_inj : ∀ m n : Nat, natToDec m = natToDec n → m = n := by
  intro m
  induction m using Nat.strong_induction_on with
  | _ m ih =>
    intro n h
    by_cases hm : m < 10 <;> by_cases hn : n < 10
    · rw [natToDec_lt m hm, natToDec_lt n hn] at h
      injection h with h1 _
      exact digitChar_inj m hm n hn h1
    · rw [natToDec_lt m hm, natToDec_ge n hn] at h
      have hlen := congrArg List.length h
      simp at hlen
      exact absurd hlen (natToDec_ne_nil _)
    · rw [natToDec_ge m hm, natToDec_lt n hn] at h
      have hlen := congrArg List.length h
      simp at hlen
      exact absurd hlen (natToDec_ne_nil _)
    · rw [natToDec_ge m hm, natToDec_ge n hn] at h
      obtain ⟨h1, h2⟩ := concat_eq_concat h
      have hdiv : m / 10 = n / 10 :=
        ih (m / 10) (Nat.div_lt_self (by omega) (by omega)) (n / 10) h1
      have hmod : m % 10 = n % 10 :=
        digitChar_inj (m % 10) (Nat.mod_lt m (by omega)) (n % 10) (Nat.mod_lt n (by omega)) h2
      omega

theorem splitAtSlash : ∀ (xs : List Char), ∀ {ys zs ws : List Char},
    ('/') ∉ xs → ('/') ∉ ys →
    xs ++ ('/') :: zs = ys ++ ('/') :: ws → xs = ys ∧ zs = ws := by
  intro xs
  induction xs with
  | nil =>
    intro ys zs ws _ hy h
    cases ys with
    | nil => simpa using h
    | cons c t =>
      simp only [List.nil_append, List.cons_append] at h
      injection h with h1 _
      exact absurd (h1 ▸ List.mem_cons_self c t) hy
  | cons c t ih =>
    intro ys zs ws hx hy h
    cases ys with
    | nil =>
      simp only [List.cons_append, List.nil_append] at h
      injection h with h1 _
      exact absurd (h1 ▸ List.mem_cons_self c t) hx
    | cons d u =>
      simp only [List.cons_append] at h
      injection h with h1 h2
      have hx2 : ('/') ∉ t := fun hm => hx (List.mem_cons_of_mem _ hm)
      have hy2 : ('/') ∉ u := fun hm => hy (List.mem_cons_of_mem _ hm)
      obtain ⟨h3, h4⟩ := ih hx2 hy2 h2
      exact ⟨by rw [h1, h3], h4⟩

theorem createKey_data (id : Nat) (ns key : String) :
    (createKey id ns key).data
      = ns.data ++ ('/') :: (natToDec id ++ ('/') :: key.data) := by
  have hslash : (("/") : String).data = [('/')] := rfl
  simp [createKey, String.data_append, hslash]

/-- Backend keys derived in the same namespace from different sequence
numbers are distinct strings (whatever the user keys). -/
theorem createKey_seq_inj (ns k1 k2 : String) (i j : Nat) (hij : i ≠ j) :
    createKey i ns k1 ≠ createKey j ns k2 := by
  intro h
  have hd := congrArg String.data h
  rw [createKey_data, createKey_data] at hd
  have h1 := List.append_cancel_left hd
  injection h1 with _ h2
  obtain ⟨h3, _⟩ :=
    splitAtSlash (natToDec i) (slash_not_mem_natToDec i) (slash_not_mem_natToDec j) h2
  exact hij (natToDec_inj i j h3)

/-! ### Equation lemmas for the facade operations -/

/-- A successful root `Prepare`/`View`: with a fresh key, valid labels and a
succeeding driver call, `createSnapshot` increments the sequence and stores
the record under the freshly derived backend key. -/
theorem createSnapshotOp_root_eq (ns : String) (valid : String → String → Bool)
    (now : Nat) (key : String) (base : Option Labels) (ro : Bool)
    (dprep : Bool → String → String → Except DErr Mounts) (b : SnapBucket)
    (m : Mounts)
    (hfresh : assocLookup b.records key = none)
    (hval : validateLabels valid base = true)
    (hdp : dprep ro (createKey (b.seq + 1) ns key) ("") = Except.ok m) :
    createSnapshotOp ns valid now key ("") base ro dprep b
      = ({ seq := b.seq + 1,
           records :=
             assocUpd b.records key
               ({ bkey := createKey (b.seq + 1) ns key, parent := "",
                  created := now, updated := now, labels := base }) },
         Except.ok m) := by
  simp [createSnapshotOp, hval, runTx, createSnapshotTx, hfresh, hdp]

/-- A successful `Remove` of a childless root record deletes exactly its
entry and leaves the sequence counter unchanged. -/
theorem removeOp_root_eq (b : SnapBucket) (key : String) (r : Record)
    (hr : assocLookup b.records key = some r)
    (hchild : r.children = [])
    (hpar : r.parent = ("")) :
    removeOp b key = ({ b with records := assocErase b.records key }, Except.ok ()) := by
  simp [removeOp, runTx, removeTx, hr, hchild, hpar]

/-! ### C6 -/

/-- C6: backend-key derivation is deterministic (`createKey` is a function)
and collision-free: two calls that allocate different sequence numbers in the
same `(namespace, snapshotter)` bucket yield different backend-key strings,
whatever user keys they are for; and re-creating the same name after a
`Remove` allocates a larger sequence number, so the new record's backend key
differs from the one issued before. -/
theorem backend_key_unique (ns : String) (valid : String → String → Bool)
    (now1 now2 : Nat) (key : String) (base : Option Labels) (ro : Bool)
    (dprep : Bool → String → String → Except DErr Mounts) (b : SnapBucket)
    (m1 m2 : Mounts)
    (hfresh : assocLookup b.records key = none)
    (hval : validateLabels valid base = true)
    (hd1 : dprep ro (createKey (b.seq + 1) ns key) ("") = Except.ok m1)
    (hd2 : dprep ro (createKey (b.seq + 2) ns key) ("") = Except.ok m2) :
    (∀ (ns2 k1 k2 : String) (i j : Nat), i ≠ j →
       createKey i ns2 k1 ≠ createKey j ns2 k2) ∧
    (∃ r1 r3,
      assocLookup (createSnapshotOp ns valid now1 key ("") base ro dprep b).1.records key
        = some r1 ∧
      (removeOp (createSnapshotOp ns valid now1 key ("") base ro dprep b).1 key).2
        = Except.ok () ∧
      assocLookup
          (createSnapshotOp ns valid now2 key ("") base ro dprep
            (removeOp (createSnapshotOp ns valid now1 key ("") base ro dprep b).1 key).1).1.records
          key
        = some r3 ∧
      r1.bkey ≠ r3.bkey) := by
  refine ⟨fun ns2 k1 k2 i j hij => createKey_seq_inj ns2 k1 k2 i j hij, ?_⟩
  have h1 := createSnapshotOp_root_eq ns valid now1 key base ro dprep b m1 hfresh hval hd1
  set r1 : Record :=
    { bkey := createKey (b.seq + 1) ns key, parent := "", created := now1,
      updated := now1, labels := base } with hr1def
  have hb1 : (createSnapshotOp ns valid now1 key ("") base ro dprep b).1
      = { seq := b.seq + 1, records := assocUpd b.records key r1 } := by
    rw [h1]
  have hlook1 : assocLookup (assocUpd b.records key r1) key = some r1 :=
    assocLookup_upd_self _ _ _
  have hrem := removeOp_root_eq
    ({ seq := b.seq + 1, records := assocUpd b.records key r1 }) key r1 hlook1 rfl rfl
  have hb2rec : assocLookup (assocErase (assocUpd b.records key r1) key) key = none :=
    assocLookup_erase_self _ _
  have h3 := createSnapshotOp_root_eq ns valid now2 key base ro dprep
    ({ seq := b.seq + 1, records := assocErase (assocUpd b.records key r1) key })
    m2 hb2rec hval (by simpa using hd2)
  refine ⟨r1, { bkey := createKey (b.seq + 2) ns key, parent := "", created := now2,
                updated := now2, labels := base }, ?_, ?_, ?_, ?_⟩
  · rw [hb1]; exact hlook1
  · rw [hb1, hrem]
  · rw [hb1, hrem]
    simp only [h3]
    exact assocLookup_upd_self _ _ _
  · simp only [hr1def]
    exact createKey_seq_inj ns key key (b.seq + 1) (b.seq + 2) (by omega)

/-- Witness for C6 at a concrete input: empty bucket, namespace `ns1`,
key `s1`, driver returning no mounts. -/
theorem backend_key_unique_witness :
    (∀ (ns2 k1 k2 : String) (i j : Nat), i ≠ j →
       createKey i ns2 k1 ≠ createKey j ns2 k2) ∧
    (∃ r1 r3,
      assocLookup (createSnapshotOp ("ns1") (fun _ _ => true) 1 ("s1") ("") none false
          (fun _ _ _ => Except.ok []) {}).1.records ("s1")
        = some r1 ∧
      (removeOp (createSnapshotOp ("ns1") (fun _ _ => true) 1 ("s1") ("") none false
          (fun _ _ _ => Except.ok []) {}).1 ("s1")).2
        = Except.ok () ∧
      assocLookup
          (createSnapshotOp ("ns1") (fun _ _ => true) 2 ("s1") ("") none false
            (fun _ _ _ => Except.ok [])
            (removeOp (createSnapshotOp ("ns1") (fun _ _ => true) 1 ("s1") ("") none false
              (fun _ _ _ => Except.ok []) {}).1 ("s1")).1).1.records
          ("s1")
        = some r3 ∧
      r1.bkey ≠ r3.bkey) :=
  backend_key_unique ("ns1") (fun _ _ => true) 1 2 ("s1") none false
    (fun _ _ _ => Except.ok []) {} [] [] rfl rfl rfl rfl

/-! ### C7 -/

/-- C7: `Prepare`/`View` are atomic.  (i) Creating a snapshot whose name
already exists fails with AlreadyExists and the whole bucket — in particular
the original record — is unchanged; (ii) a failure of the driver's
in-transaction `Prepare`/`View` call aborts with that driver error and the
bucket is unchanged; (iii) whenever `createSnapshot` returns any error, the
bucket is exactly as before — no partial record survives. -/
theorem create_snapshot_atomic :
    (∀ (ns : String) (valid : String → String → Bool) (now : Nat)
       (key parent : String) (base : Option Labels) (ro : Bool)
       (dprep : Bool → String → String → Except DErr Mounts) (b : SnapBucket)
       (r : Record),
       validateLabels valid base = true →
       assocLookup b.records key = some r →
       createSnapshotOp ns valid now key parent base ro dprep b
         = (b, Except.error SErr.alreadyExists)) ∧
    (∀ (ns : String) (valid : String → String → Bool) (now : Nat)
       (key : String) (base : Option Labels) (ro : Bool)
       (dprep : Bool → String → String → Except DErr Mounts) (b : SnapBucket)
       (e : DErr),
       validateLabels valid base = true →
       assocLookup b.records key = none →
       dprep ro (createKey (b.seq + 1) ns key) ("") = Except.error e →
       createSnapshotOp ns valid now key ("") base ro dprep b
         = (b, Except.error (SErr.driver e))) ∧
    (∀ (ns : String) (valid : String → String → Bool) (now : Nat)
       (key parent : String) (base : Option Labels) (ro : Bool)
       (dprep : Bool → String → String → Except DErr Mounts) (b : SnapBucket)
       (e : SErr),
       (createSnapshotOp ns valid now key parent base ro dprep b).2 = Except.error e →
       (createSnapshotOp ns valid now key parent base ro dprep b).1 = b) := by
  refine ⟨?_, ?_, ?_⟩
  · intro ns valid now key parent base ro dprep b r hval hr
    simp [createSnapshotOp, hval, runTx, createSnapshotTx, hr]
  · intro ns valid now key base ro dprep b e hval hfresh hdp
    simp [createSnapshotOp, hval, runTx, createSnapshotTx, hfresh, hdp]
  · intro ns valid now key parent base ro dprep b e h
    by_cases hv : validateLabels valid base
    · simp only [createSnapshotOp, hv, if_true] at h ⊢
      rcases hbody : createSnapshotTx ns now key parent base ro dprep b with e2 | p
      · simp [runTx, hbody]
      · simp [runTx, hbody] at h
    · simp [createSnapshotOp, hv]

/-- Witness for C7 at concrete inputs: (i) duplicate name `s1` is rejected
with AlreadyExists leaving the bucket unchanged; (ii) a failing driver
`Prepare` aborts leaving the bucket unchanged; (iii) instantiates the
rollback clause on the AlreadyExists run. -/
theorem create_snapshot_atomic_witness :
    (createSnapshotOp ("ns1") (fun _ _ => true) 7 ("s1") ("p1") none false
        (fun _ _ _ => Except.ok [])
        ({ seq := 3, records := [(("s1"), { bkey := "ns1/1/s1" })] })
      = (({ seq := 3, records := [(("s1"), { bkey := "ns1/1/s1" })] }),
         Except.error SErr.alreadyExists)) ∧
    (createSnapshotOp ("ns1") (fun _ _ => true) 7 ("s2") ("") none false
        (fun _ _ _ => Except.error DErr.internal)
        ({ seq := 3, records := [(("s1"), { bkey := "ns1/1/s1" })] })
      = (({ seq := 3, records := [(("s1"), { bkey := "ns1/1/s1" })] }),
         Except.error (SErr.driver DErr.internal))) ∧
    (createSnapshotOp ("ns1") (fun _ _ => true) 7 ("s1") ("p1") none false
        (fun _ _ _ => Except.ok [])
        ({ seq := 3, records := [(("s1"), { bkey := "ns1/1/s1" })] })).1
      = ({ seq := 3, records := [(("s1"), { bkey := "ns1/1/s1" })] }) := by
  refine ⟨?_, ?_, ?_⟩
  · exact create_snapshot_atomic.1 ("ns1") (fun _ _ => true) 7 ("s1") ("p1") none false
      (fun _ _ _ => Except.ok []) _ ({ bkey := "ns1/1/s1" }) rfl rfl
  · exact create_snapshot_atomic.2.1 ("ns1") (fun _ _ => true) 7 ("s2") none false
      (fun _ _ _ => Except.error DErr.internal) _ DErr.internal rfl rfl rfl
  · exact create_snapshot_atomic.2.2 ("ns1") (fun _ _ => true) 7 ("s1") ("p1") none false
      (fun _ _ _ => Except.ok []) _ SErr.alreadyExists (by rfl)

/-! ### C5 -/

/-- A successful `Commit` of a root record: new bucket contents. -/
theorem commitOp_root_eq (ns : String) (valid : String → String → Bool)
    (now : Nat) (name key : String) (base : Option Labels)
    (dcommit : String → String → Option DErr) (b : SnapBucket) (r : Record)
    (hname : assocLookup b.records name = none)
    (hkey : assocLookup b.records key = some r)
    (hpar : r.parent = (""))
    (hval : validateLabels valid base = true)
    (hdc : dcommit (createKey (b.seq + 1) ns name) r.bkey = none) :
    commitOp ns valid now name key base dcommit b
      = ({ seq := b.seq + 1,
           records :=
             assocErase
               (assocUpd b.records name
                 ({ bkey := createKey (b.seq + 1) ns name, parent := r.parent,
                    created := now, updated := now, labels := base }))
               key },
         Except.ok ()) := by
  simp [commitOp, hval, runTx, commitTx, hname, hkey, hpar, hdc]

/-- A successful `Commit` of a parented record: the parent's children lose
`key` and gain `name`; new bucket contents. -/
theorem commitOp_parent_eq (ns : String) (valid : String → String → Bool)
    (now : Nat) (name key : String) (base : Option Labels)
    (dcommit : String → String → Option DErr) (b : SnapBucket) (r p : Record)
    (hname : assocLookup b.records name = none)
    (hkey : assocLookup b.records key = some r)
    (hpar : r.parent ≠ (""))
    (hp : assocLookup b.records r.parent = some p)
    (hval : validateLabels valid base = true)
    (hdc : dcommit (createKey (b.seq + 1) ns name) r.bkey = none) :
    commitOp ns valid now name key base dcommit b
      = ({ seq := b.seq + 1,
           records :=
             assocErase
               (assocUpd
                 (assocUpd b.records r.parent
                   ({ p with children := addChild (removeChild p.children key) name }))
                 name
                 ({ bkey := createKey (b.seq + 1) ns name, parent := r.parent,
                    created := now, updated := now, labels := base }))
               key },
         Except.ok ()) := by
  simp [commitOp, hval, runTx, commitTx, hname, hkey, hpar, hp, hdc]

/-- C5 counterexample: the claim says that after `Commit("release","active")`
a `Stat("release")` returns parent, labels and timestamps equal to what
`Update` last set on `active`.  In the concrete scenario — `Update` at time 5
set labels `{k ↦ v}` on `active` (whose `created`/`updated` were then 1/5) —
`Commit` at time 9 with no options writes the option-built (nil) labels and
stamps both timestamps with the commit time, so `Stat("release")` returns
nil labels and `created = updated = 9`, not labels `{k ↦ v}`, `created 1`,
`updated 5`.  (`Stat("active")` does return NotFound as claimed.) -/
theorem commit_stat_claim_false :
    statOp c5Bucket2 c5DStat ("release")
      = Except.ok { name := "release", parent := "", labels := none,
                    created := 9, updated := 9 } ∧
    statOp c5Bucket2 c5DStat ("active") = Except.error SErr.notFound ∧
    assocLookup c5Bucket1.records ("active")
      = some { bkey := "ns1/1/active", created := 1, updated := 5,
               labels := some [("k", "v")] } ∧
    (9 : Nat) ≠ 5 ∧ (9 : Nat) ≠ 1 ∧
    (none : Option Labels) ≠ some [("k", "v")] := by
  refine ⟨rfl, rfl, rfl, by decide, by decide, by decide⟩

/-- C5 amended: after a successful `Commit(name, key)` at time `now` — the
target name fresh, the active record `r` present at `key`, its parent either
empty or an existing record other than the new name, labels from the commit's
options valid, driver `Commit` succeeding — `Stat(name)` (with the driver
reporting nil labels for the new backend key) returns the *parent* of the
old active record, but the *labels built from Commit's options* and
*both timestamps equal to the commit time* (not what `Update` last set);
and `Stat(key)` fails with NotFound. -/
theorem commit_then_stat (ns : String) (valid : String → String → Bool)
    (now : Nat) (name key : String) (base : Option Labels)
    (dcommit : String → String → Option DErr) (b : SnapBucket) (r : Record)
    (dstat : String → Except DErr Info) (dinfo : Info)
    (hname : assocLookup b.records name = none)
    (hkey : assocLookup b.records key = some r)
    (hpar : r.parent = ("") ∨
      (r.parent ≠ ("") ∧ r.parent ≠ name ∧
        (∃ p, assocLookup b.records r.parent = some p)))
    (hval : validateLabels valid base = true)
    (hdc : dcommit (createKey (b.seq + 1) ns name) r.bkey = none)
    (hds : dstat (createKey (b.seq + 1) ns name) = Except.ok dinfo)
    (hdl : dinfo.labels = none) :
    (commitOp ns valid now name key base dcommit b).2 = Except.ok () ∧
    statOp (commitOp ns valid now name key base dcommit b).1 dstat name
      = Except.ok ({ dinfo with
          name := name, parent := r.parent, labels := base,
          created := now, updated := now }) ∧
    statOp (commitOp ns valid now name key base dcommit b).1 dstat key
      = Except.error SErr.notFound := by
  have hkn : key ≠ name := by
    intro he
    rw [he, hname] at hkey
    exact Option.noConfusion hkey
  have hoverlay :
      overlayInfo dinfo
        (recordInfo name
          ({ bkey := createKey (b.seq + 1) ns name, parent := r.parent,
             created := now, updated := now, labels := base }))
      = { dinfo with
          name := name, parent := r.parent, labels := base,
          created := now, updated := now } := by
    simp [overlayInfo, recordInfo, hdl]
  rcases hpar with hroot | ⟨hne, hnn, ⟨p, hp⟩⟩
  · have heq := commitOp_root_eq ns valid now name key base dcommit b r
      hname hkey hroot hval hdc
    rw [heq]
    refine ⟨rfl, ?_, ?_⟩
    · have hlook : assocLookup
          (assocErase
            (assocUpd b.records name
              ({ bkey := createKey (b.seq + 1) ns name, parent := r.parent,
                 created := now, updated := now, labels := base }))
            key) name
          = some ({ bkey := createKey (b.seq + 1) ns name, parent := r.parent,
                    created := now, updated := now, labels := base }) := by
        rw [assocLookup_erase_ne _ key name hkn]
        exact assocLookup_upd_self _ _ _
      simp [statOp, hlook, hds, hoverlay]
    · have hlook : assocLookup
          (assocErase
            (assocUpd b.records name
              ({ bkey := createKey (b.seq + 1) ns name, parent := r.parent,
                 created := now, updated := now, labels := base }))
            key) key = none := assocLookup_erase_self _ _
      simp [statOp, hlook]
  · have heq := commitOp_parent_eq ns valid now name key base dcommit b r p
      hname hkey hne hp hval hdc
    rw [heq]
    refine ⟨rfl, ?_, ?_⟩
    · have hlook : assocLookup
          (assocErase
            (assocUpd
              (assocUpd b.records r.parent
                ({ p with children := addChild (removeChild p.children key) name }))
              name
              ({ bkey := createKey (b.seq + 1) ns name, parent := r.parent,
                 created := now, updated := now, labels := base }))
            key) name
          = some ({ bkey := createKey (b.seq + 1) ns name, parent := r.parent,
                    created := now, updated := now, labels := base }) := by
        rw [assocLookup_erase_ne _ key name hkn]
        exact assocLookup_upd_self _ _ _
      simp [statOp, hlook, hds, hoverlay]
    · have hlook : assocLookup
          (assocErase
            (assocUpd
              (assocUpd b.records r.parent
                ({ p with children := addChild (removeChild p.children key) name }))
              name
              ({ bkey := createKey (b.seq + 1) ns name, parent := r.parent,
                 created := now, updated := now, labels := base }))
            key) key = none := assocLookup_erase_self _ _
      simp [statOp, hlook]

/-- Witness for the C5 amended theorem at the concrete scenario: committing
`active` (updated at time 5) to `release` at time 9. -/
theorem commit_then_stat_witness :
    (commitOp ("ns1") (fun _ _ => true) 9 ("release") ("active") none
        (fun _ _ => none) c5Bucket1).2 = Except.ok () ∧
    statOp (commitOp ("ns1") (fun _ _ => true) 9 ("release") ("active") none
        (fun _ _ => none) c5Bucket1).1 c5DStat ("release")
      = Except.ok ({ ({} : Info) with
          name := ("release"), parent := ("" : String),
          labels := (none : Option Labels), created := 9, updated := 9 }) ∧
    statOp (commitOp ("ns1") (fun _ _ => true) 9 ("release") ("active") none
        (fun _ _ => none) c5Bucket1).1 c5DStat ("active")
      = Except.error SErr.notFound := by
  have h := commit_then_stat ("ns1") (fun _ _ => true) 9 ("release") ("active") none
    (fun _ _ => none) c5Bucket1
    ({ bkey := "ns1/1/active", created := 1, updated := 5, labels := some [("k", "v")] })
    c5DStat {} (by rfl) (by rfl) (Or.inl rfl) (by rfl) (by rfl) (by rfl) (by rfl)
  exact h

/-! ### Forest and sweep lemmas -/

theorem assocLookup_some_mem {α : Type} {l : List (String × α)} {k : String} {v : α}
    (h : assocLookup l k = some v) : (k, v) ∈ l := by
  induction l with
  | nil => simp [assocLookup] at h
  | cons hd t ih =>
    obtain ⟨k1, v1⟩ := hd
    by_cases hk : k1 = k
    · subst hk
      rw [assocLookup, if_pos rfl] at h
      injection h with h1
      subst h1
      exact List.mem_cons_self _ _
    · rw [assocLookup, if_neg hk] at h
      exact List.mem_cons_of_mem _ (ih h)

theorem assocLookup_upd_cases {α : Type} {l : List (String × α)} {k n : String}
    {v t : α} (h : assocLookup (assocUpd l k v) n = some t) :
    (k = n ∧ t = v) ∨ (k ≠ n ∧ assocLookup l n = some t) := by
  by_cases hk : k = n
  · subst hk
    rw [assocLookup_upd_self] at h
    injection h with h1
    exact Or.inl ⟨rfl, h1.symm⟩
  · rw [assocLookup_upd_ne _ _ _ _ hk] at h
    exact Or.inr ⟨hk, h⟩

theorem getD_remove_true {nodes : List (String × TNode)} {name : String}
    (h : ((assocLookup nodes name).getD {}).remove = true) :
    ∃ t, assocLookup nodes name = some t ∧ t.remove = true := by
  rcases hl : assocLookup nodes name with _ | t
  · rw [hl] at h
    simp at h
  · refine ⟨t, rfl, ?_⟩
    rw [hl] at h
    simpa using h

theorem walkTreeStep_inv (seen : List String)
    (acc : List (String × TNode) × List String) (info : Info)
    (h : ∀ n t, assocLookup acc.1 n = some t → t.remove = true →
      seen.contains n = false) :
    ∀ n t, assocLookup (walkTreeStep seen acc info).1 n = some t →
      t.remove = true → seen.contains n = false := by
  intro n t ht hrm
  simp only [walkTreeStep] at ht
  by_cases hp : info.parent = ("")
  · rw [if_pos hp] at ht
    rcases assocLookup_upd_cases ht with ⟨hkn, hteq⟩ | ⟨_, hrest⟩
    · subst hteq
      simp only [Bool.not_eq_true'] at hrm
      rwa [hkn] at hrm
    · exact h n t hrest hrm
  · rw [if_neg hp] at ht
    rcases assocLookup_upd_cases ht with ⟨hkn, hteq⟩ | ⟨_, ht2⟩
    · subst hteq
      simp only at hrm
      obtain ⟨t2, hl2, hr2⟩ := getD_remove_true hrm
      rcases assocLookup_upd_cases hl2 with ⟨hkn2, hteq2⟩ | ⟨_, ht3⟩
      · subst hteq2
        simp only [Bool.not_eq_true'] at hr2
        rwa [hkn2, hkn] at hr2
      · rw [← hkn]
        exact h _ t2 ht3 hr2
    · rcases assocLookup_upd_cases ht2 with ⟨hkn2, hteq2⟩ | ⟨_, ht3⟩
      · subst hteq2
        simp only [Bool.not_eq_true'] at hrm
        rwa [hkn2] at hrm
      · exact h n t ht3 hrm

theorem walkTree_remove_not_seen (seen : List String) (infos : List Info) :
    ∀ n t, assocLookup (walkTree seen infos).1 n = some t → t.remove = true →
      seen.contains n = false := by
  suffices haux : ∀ acc,
      (∀ n t, assocLookup acc.1 n = some t → t.remove = true →
        seen.contains n = false) →
      ∀ n t, assocLookup (infos.foldl (walkTreeStep seen) acc).1 n = some t →
        t.remove = true → seen.contains n = false by
    exact haux ([], []) (fun n t hl _ => by simp [assocLookup] at hl)
  induction infos with
  | nil => intro acc h; exact h
  | cons i rest ih =>
    intro acc h
    rw [List.foldl_cons]
    exact ih _ (walkTreeStep_inv seen acc i h)

theorem pruneSeq_trace {σ : Type} (f : σ → String → Option (PruneOut σ))
    (P : String → Prop)
    (hf : ∀ st c out, f st c = some out → ∀ n ∈ out.trace, P n) :
    ∀ (cs : List String) (st : σ) (out : PruneOut σ),
      pruneSeq f st cs = some out → ∀ n ∈ out.trace, P n := by
  intro cs
  induction cs with
  | nil =>
    intro st out h n hn
    simp only [pruneSeq] at h
    injection h with h1
    rw [← h1] at hn
    simp at hn
  | cons c cs ih =>
    intro st out h n hn
    simp only [pruneSeq] at h
    rcases hfc : f st c with _ | out1
    · simp [hfc] at h
    · simp only [hfc] at h
      cases herr : out1.err with
      | some e =>
        simp only [herr] at h
        injection h with h1
        rw [← h1] at hn
        exact hf st c out1 hfc n hn
      | none =>
        simp only [herr] at h
        rcases hs : pruneSeq f out1.st cs with _ | out2
        · simp [hs] at h
        · simp only [hs] at h
          injection h with h1
          rw [← h1] at hn
          simp only [List.mem_append] at hn
          rcases hn with hn1 | hn2
          · exact hf st c out1 hfc n hn1
          · exact ih out1.st out2 hs n hn2

theorem pruneBranch_trace {σ : Type} (rm : σ → String → σ × Option DErr)
    (nodes : List (String × TNode)) :
    ∀ fuel (st : σ) name out, pruneBranch rm nodes fuel st name = some out →
      ∀ n ∈ out.trace, ∃ t, assocLookup nodes n = some t ∧ t.remove = true := by
  intro fuel
  induction fuel with
  | zero => intro st name out h; simp [pruneBranch] at h
  | succ fuel ih =>
    intro st name out h n hn
    simp only [pruneBranch] at h
    rcases hs : pruneSeq (fun st2 c => pruneBranch rm nodes fuel st2 c) st
        ((assocLookup nodes name).getD {}).children with _ | out1
    · simp [hs] at h
    · simp only [hs] at h
      have hsub := pruneSeq_trace (fun st2 c => pruneBranch rm nodes fuel st2 c)
        (fun m => ∃ t, assocLookup nodes m = some t ∧ t.remove = true)
        (fun st2 c o hc => ih st2 c o hc) _ st out1 hs
      cases herr : out1.err with
      | some e =>
        simp only [herr] at h
        injection h with h1
        rw [← h1] at hn
        exact hsub n hn
      | none =>
        simp only [herr] at h
        by_cases hrm2 : ((assocLookup nodes name).getD {}).remove
        · rw [if_pos hrm2] at h
          obtain ⟨t0, hl0, hr0⟩ := getD_remove_true hrm2
          rcases hrmres : rm out1.st name with ⟨st2, e2⟩
          have htr : n ∈ out1.trace ++ [name] → (∃ t, assocLookup nodes n = some t ∧
              t.remove = true) := by
            intro hmem
            rcases List.mem_append.mp hmem with hn1 | hn2
            · exact hsub n hn1
            · have : n = name := by simpa using hn2
              exact this ▸ ⟨t0, hl0, hr0⟩
          cases e2 with
          | none =>
            simp only [hrmres] at h
            injection h with h1
            rw [← h1] at hn
            exact htr hn
          | some de =>
            cases de with
            | failedPrecondition =>
              simp only [hrmres] at h
              injection h with h1
              rw [← h1] at hn
              exact htr hn
            | notFound =>
              simp only [hrmres] at h
              injection h with h1
              rw [← h1] at hn
              exact htr hn
            | internal =>
              simp only [hrmres] at h
              injection h with h1
              rw [← h1] at hn
              exact htr hn
        · rw [if_neg hrm2] at h
          injection h with h1
          rw [← h1] at hn
          exact hsub n hn

theorem pruneSeq_ne_none {σ : Type} (f : σ → String → Option (PruneOut σ)) :
    ∀ (cs : List String) (st : σ),
      (∀ st2 c, c ∈ cs → f st2 c ≠ none) → pruneSeq f st cs ≠ none := by
  intro cs
  induction cs with
  | nil => intro st _; simp [pruneSeq]
  | cons c cs ih =>
    intro st h
    simp only [pruneSeq]
    rcases hfc : f st c with _ | out
    · exact absurd hfc (h st c (List.mem_cons_self c cs))
    · cases herr : out.err with
      | some e => simp [herr]
      | none =>
        rcases hs : pruneSeq f out.st cs with _ | out2
        · exact absurd hs
            (ih out.st (fun st2 c2 hc2 => h st2 c2 (List.mem_cons_of_mem _ hc2)))
        · simp [herr, hs]

theorem pruneBranch_ne_none {σ : Type} (rm : σ → String → σ × Option DErr)
    (nodes : List (String × TNode)) (rank : String → Nat)
    (hr : ∀ p ∈ nodes, ∀ c ∈ p.2.children, rank c < rank p.1) :
    ∀ fuel (st : σ) name, rank name < fuel →
      pruneBranch rm nodes fuel st name ≠ none := by
  intro fuel
  induction fuel with
  | zero => intro st name h; omega
  | succ fuel ih =>
    intro st name hn
    simp only [pruneBranch]
    have hch : ∀ st2 c, c ∈ ((assocLookup nodes name).getD {}).children →
        pruneBranch rm nodes fuel st2 c ≠ none := by
      intro st2 c hc
      rcases hl : assocLookup nodes name with _ | t
      · rw [hl] at hc; simp at hc
      · rw [hl] at hc
        simp only [Option.getD_some] at hc
        have hlt : rank c < rank name := hr (name, t) (assocLookup_some_mem hl) c hc
        exact ih st2 c (by omega)
    rcases hs : pruneSeq (fun st2 c => pruneBranch rm nodes fuel st2 c) st
        ((assocLookup nodes name).getD {}).children with _ | out
    · exact absurd hs (pruneSeq_ne_none _ _ st hch)
    · cases herr : out.err with
      | some e => simp [herr]
      | none =>
        by_cases hrm2 : ((assocLookup nodes name).getD {}).remove
        · rcases hrmres : rm out.st name with ⟨st2, e2⟩
          cases e2 with
          | none => simp [herr, hrm2, hrmres]
          | some de => cases de <;> simp [herr, hrm2, hrmres]
        · simp [herr, hrm2]

theorem pruneBranch_ok_eq {σ : Type} (nodes : List (String × TNode)) :
    ∀ fuel (st : σ) name,
      pruneBranch (fun s _ => (s, none)) nodes fuel st name
        = (specSweepAt nodes fuel name).map (fun tr => PruneOut.mk st tr none) := by
  intro fuel
  induction fuel with
  | zero => intro st name; simp [pruneBranch, specSweepAt]
  | succ fuel ih =>
    intro st name
    have hseq : ∀ (cs : List String) (st2 : σ),
        pruneSeq (fun s c => pruneBranch (fun s2 _ => (s2, none)) nodes fuel s c) st2 cs
          = (specSweepSeq (specSweepAt nodes fuel) cs).map
              (fun tr => PruneOut.mk st2 tr none) := by
      intro cs
      induction cs with
      | nil => intro st2; simp [pruneSeq, specSweepSeq]
      | cons c cs ihc =>
        intro st2
        simp only [pruneSeq, specSweepSeq]
        rw [ih st2 c]
        rcases hc : specSweepAt nodes fuel c with _ | tr
        · simp [hc]
        · rcases hs : specSweepSeq (specSweepAt nodes fuel) cs with _ | tr2
          · simp [hs, ihc st2]
          · simp [hs, ihc st2]
    rcases hb : specSweepSeq (specSweepAt nodes fuel)
        ((assocLookup nodes name).getD {}).children with _ | below
    · simp [pruneBranch, specSweepAt, hseq, hb]
    · by_cases hrm2 : ((assocLookup nodes name).getD {}).remove
      · simp [pruneBranch, specSweepAt, hseq, hb, hrm2]
      · simp [pruneBranch, specSweepAt, hseq, hb, hrm2]

/-! ### C2 -/

/-- C2: a GC pass never invokes the driver's `Remove` on a node whose name
(backend key) is referenced by a live metadata record in any namespace: every
name in the sweep's invocation trace is absent from the mark phase's live
set.  And the concrete cross-namespace scenario: with lineage
`a1 ← b1 ← c1` at the driver and only `b1` referenced (by namespace `ns2`),
the pass invokes `Remove` on `c1` and `a1` but never on `b1`; the driver
refuses `a1` (FailedPrecondition, tolerated), so afterwards `a1` and `b1`
still exist while the everywhere-unreferenced `c1` was removed. -/
theorem gc_never_removes_live :
    (∀ (σ : Type) (db : DB) (infos : List Info) (rm : σ → String → σ × Option DErr)
       (fuel : Nat) (st : σ) (out : PruneOut σ),
       gcRun db infos rm fuel st = some out →
       ∀ n ∈ out.trace, (collectSeen db).contains n = false) ∧
    (gcRun c2DB gcInfos driverRemove 4 gcDriverSt
       = some ⟨[(("a1"), ""), (("b1"), "a1")], [("c1"), ("a1")], none⟩ ∧
     ("b1") ∉ [("c1"), ("a1")] ∧
     assocLookup ([(("a1"), ""), (("b1"), "a1")] : DriverSt) ("b1") = some ("a1") ∧
     assocLookup ([(("a1"), ""), (("b1"), "a1")] : DriverSt) ("a1") = some ("") ∧
     assocLookup ([(("a1"), ""), (("b1"), "a1")] : DriverSt) ("c1") = none) := by
  constructor
  · intro σ db infos rm fuel st out h n hn
    simp only [gcRun] at h
    have htr := pruneSeq_trace
      (fun st2 m => pruneBranch rm (walkTree (collectSeen db) infos).1 fuel st2 m)
      (fun m => ∃ t, assocLookup (walkTree (collectSeen db) infos).1 m = some t ∧
        t.remove = true)
      (fun st2 c o hc => pruneBranch_trace rm _ fuel st2 c o hc)
      _ st out h n hn
    obtain ⟨t, hl, hrm⟩ := htr
    exact walkTree_remove_not_seen (collectSeen db) infos n t hl hrm
  · refine ⟨by decide, by decide, by decide, by decide, by decide⟩

/-- Witness for C2's general part at the concrete scenario: both removed
names, `c1` and `a1`, are indeed absent from the live set. -/
theorem gc_never_removes_live_witness :
    (collectSeen c2DB).contains ("c1") = false ∧
    (collectSeen c2DB).contains ("a1") = false := by
  have h := gc_never_removes_live.1 DriverSt c2DB gcInfos driverRemove 4 gcDriverSt
    (⟨[(("a1"), ""), (("b1"), "a1")], [("c1"), ("a1")], none⟩) (by decide)
  exact ⟨h ("c1") (by decide), h ("a1") (by decide)⟩

/-! ### C3 -/

/-- C3: the sweep is post-order and invokes the driver's `Remove` exactly on
the nodes marked removable, in that order — `pruneBranch` with a driver whose
`Remove` always succeeds coincides with the spec-side post-order traversal
`specSweepAt`.  Concretely, for the lineage `a1 (root) ← b1 ← c1`, all
unreferenced: (i) with the real driver the pass removes `c1`, then `b1`,
then `a1`, leaving the driver with zero nodes; (ii) a FailedPrecondition
from `Remove` (here on `b1`) is tolerated and the sweep continues through
`a1` with no error; (iii) any other `Remove` error (here on `b1`) aborts the
sweep — `a1` is not visited — and is returned. -/
theorem gc_sweep_postorder_and_errors :
    (∀ (σ : Type) (nodes : List (String × TNode)) (fuel : Nat) (st : σ)
       (name : String),
       pruneBranch (fun s _ => (s, none)) nodes fuel st name
         = (specSweepAt nodes fuel name).map (fun tr => PruneOut.mk st tr none)) ∧
    (gcRun ([] : DB) gcInfos driverRemove 4 gcDriverSt
       = some ⟨[], [("c1"), ("b1"), ("a1")], none⟩) ∧
    (gcRun ([] : DB) gcInfos
        (fun (s : Unit) nm =>
          (s, if nm = ("b1") then some DErr.failedPrecondition else none)) 4 ()
       = some ⟨(), [("c1"), ("b1"), ("a1")], none⟩) ∧
    (gcRun ([] : DB) gcInfos
        (fun (s : Unit) nm => (s, if nm = ("b1") then some DErr.internal else none)) 4 ()
       = some ⟨(), [("c1"), ("b1")], some DErr.internal⟩) := by
  refine ⟨?_, by decide, by decide, by decide⟩
  intro σ nodes fuel st name
  exact pruneBranch_ok_eq nodes fuel st name

/-! ### C9 -/

/-- C9: garbage collection's sweep terminates on every acyclic forest: if a
rank function certifies that every child in the arena ranks strictly below
its parent (no node is its own ancestor), then `pruneBranch` — and the root
loop over it — never exhausts its recursion-depth budget once that budget
exceeds the ranks involved.  (The forest construction `walkTree` is a total
fold and needs no such hypothesis; the Go recursion itself has no cycle
guard, so acyclicity is genuinely the termination hypothesis.) -/
theorem prune_terminates_acyclic :
    ∀ (σ : Type) (rm : σ → String → σ × Option DErr)
      (nodes : List (String × TNode)) (rank : String → Nat),
      (∀ p ∈ nodes, ∀ c ∈ p.2.children, rank c < rank p.1) →
      (∀ fuel (st : σ) name, rank name < fuel →
         pruneBranch rm nodes fuel st name ≠ none) ∧
      (∀ fuel (st : σ) (roots : List String), (∀ n ∈ roots, rank n < fuel) →
         pruneSeq (fun st2 n => pruneBranch rm nodes fuel st2 n) st roots ≠ none) := by
  intro σ rm nodes rank hr
  refine ⟨pruneBranch_ne_none rm nodes rank hr, ?_⟩
  intro fuel st roots hroots
  exact pruneSeq_ne_none _ roots st
    (fun st2 c hc => pruneBranch_ne_none rm nodes rank hr fuel st2 c (hroots c hc))

/-- Witness for C9 at a concrete acyclic arena (`a` with child `b`), ranked
by depth, with a fuel of 2. -/
theorem prune_terminates_acyclic_witness :
    pruneBranch (fun (s : Unit) _ => (s, none))
        [(("a"), { remove := true, children := [("b")] }), (("b"), { remove := true })]
        2 () ("a") ≠ none ∧
    pruneSeq (fun (st2 : Unit) n =>
        pruneBranch (fun (s : Unit) _ => (s, none))
          [(("a"), { remove := true, children := [("b")] }), (("b"), { remove := true })]
          2 st2 n) () [("a")] ≠ none := by
  have h := prune_terminates_acyclic Unit (fun s _ => (s, none))
    [(("a"), { remove := true, children := [("b")] }), (("b"), { remove := true })]
    (fun n => if n = ("a") then 1 else 0) (by decide)
  exact ⟨h.1 2 () ("a") (by decide), h.2 2 () [("a")] (by decide)⟩

/-! ### Walk lemmas -/

theorem processBatch_ok (dstat : String → Except DErr Info) (fn : Info → Option String) :
    ∀ (l : List (String × Record)), (∀ p ∈ l, walkStepOk dstat fn p = true) →
      processBatch dstat fn l = Except.ok (walkVisits dstat l) := by
  intro l
  induction l with
  | nil => intro _; rfl
  | cons p rest ih =>
    intro h
    have hp := h p (List.mem_cons_self _ _)
    have hrest := ih (fun q hq => h q (List.mem_cons_of_mem _ hq))
    obtain ⟨nm, r⟩ := p
    simp only [walkStepOk] at hp
    rcases hd : dstat r.bkey with e | d
    · cases e with
      | notFound => simp [processBatch, walkVisits, List.filterMap_cons, hd, hrest]
      | failedPrecondition => rw [hd] at hp; simp at hp
      | internal => rw [hd] at hp; simp at hp
    · rw [hd] at hp
      simp only [Option.isNone_iff_eq_none] at hp
      simp [processBatch, walkVisits, List.filterMap_cons, hd, hp, hrest]

theorem processBatch_err (dstat : String → Except DErr Info) (fn : Info → Option String) :
    ∀ (pre : List (String × Record)) (p : String × Record)
      (post : List (String × Record)) (e : WErr),
      (∀ q ∈ pre, walkStepOk dstat fn q = true) →
      walkStepErr dstat fn p = some e →
      processBatch dstat fn (pre ++ p :: post) = Except.error e := by
  intro pre
  induction pre with
  | nil =>
    intro p post e _ herr
    obtain ⟨nm, r⟩ := p
    simp only [walkStepErr] at herr
    rcases hd : dstat r.bkey with e2 | d
    · cases e2 with
      | notFound => rw [hd] at herr; simp at herr
      | failedPrecondition =>
        rw [hd] at herr
        simp only [Option.some.injEq] at herr
        simp [processBatch, hd, herr]
      | internal =>
        rw [hd] at herr
        simp only [Option.some.injEq] at herr
        simp [processBatch, hd, herr]
    · simp only [hd] at herr
      rcases hfn : fn (overlayInfo d (recordInfo nm r)) with _ | msg
      · simp [hfn] at herr
      · simp only [hfn, Option.some.injEq] at herr
        simp [processBatch, hd, hfn, herr]
  | cons q pre ih =>
    intro p post e h herr
    have hq := h q (List.mem_cons_self _ _)
    have hpre := fun q2 hq2 => h q2 (List.mem_cons_of_mem _ hq2)
    obtain ⟨nm, r⟩ := q
    simp only [walkStepOk] at hq
    rcases hd : dstat r.bkey with e2 | d
    · cases e2 with
      | notFound => simp [processBatch, hd, ih p post e hpre herr]
      | failedPrecondition => rw [hd] at hq; simp at hq
      | internal => rw [hd] at hq; simp at hq
    · rw [hd] at hq
      simp only [Option.isNone_iff_eq_none] at hq
      simp [processBatch, hd, hq, ih p post e hpre herr]

theorem walkVisits_names (dstat : String → Except DErr Info) :
    ∀ (l : List (String × Record)), (∀ p ∈ l, dstatOk (dstat p.2.bkey) = true) →
      (walkVisits dstat l).map Info.name = l.map Prod.fst := by
  intro l
  induction l with
  | nil => intro _; rfl
  | cons p rest ih =>
    intro h
    have hp := h p (List.mem_cons_self _ _)
    have hrest := ih (fun q hq => h q (List.mem_cons_of_mem _ hq))
    obtain ⟨nm, r⟩ := p
    simp only [dstatOk] at hp
    rcases hd : dstat r.bkey with e | d
    · rw [hd] at hp; simp at hp
    · simp only [walkVisits, List.filterMap_cons, hd, List.map_cons] at hrest ⊢
      rw [hrest]
      simp [overlayInfo, recordInfo]

theorem walkLoop_small (dstat : String → Except DErr Info) (fn : Info → Option String)
    (rem : List (String × Record)) (hle : rem.length ≤ batchSize)
    (h : ∀ p ∈ rem, walkStepOk dstat fn p = true) :
    walkLoop dstat fn rem = Except.ok [walkVisits dstat rem] := by
  rw [walkLoop]
  rw [List.take_of_length_le hle, processBatch_ok dstat fn rem h]
  simp [hle]

theorem walkLoop_ok (dstat : String → Except DErr Info) (fn : Info → Option String) :
    ∀ (N : Nat) (rem : List (String × Record)), rem.length ≤ N →
      (∀ p ∈ rem, walkStepOk dstat fn p = true) →
      ∃ gs, walkLoop dstat fn rem = Except.ok gs ∧
        gs.flatten = walkVisits dstat rem ∧
        (∀ g ∈ gs, g.length ≤ batchSize) ∧
        gs.length = max 1 ((rem.length + (batchSize - 1)) / batchSize) := by
  intro N
  induction N with
  | zero =>
    intro rem hlen h
    have hle : rem.length ≤ batchSize := by simp [batchSize]; omega
    refine ⟨[walkVisits dstat rem], walkLoop_small dstat fn rem hle h, by simp, ?_, ?_⟩
    · intro g hg
      simp only [List.mem_singleton] at hg
      subst hg
      calc (walkVisits dstat rem).length ≤ rem.length := List.length_filterMap_le _ _
        _ ≤ batchSize := hle
    · simp only [List.length_singleton, batchSize] at *
      omega
  | succ N ihN =>
    intro rem hlen h
    by_cases hle : rem.length ≤ batchSize
    · refine ⟨[walkVisits dstat rem], walkLoop_small dstat fn rem hle h, by simp, ?_, ?_⟩
      · intro g hg
        simp only [List.mem_singleton] at hg
        subst hg
        calc (walkVisits dstat rem).length ≤ rem.length := List.length_filterMap_le _ _
          _ ≤ batchSize := hle
      · simp only [List.length_singleton, batchSize] at *
        omega
    · obtain ⟨gs2, hgs2, hflat, hsz, hcount⟩ := ihN (rem.drop batchSize)
        (by simp only [List.length_drop, batchSize] at *; omega)
        (fun p hp => h p ((List.drop_subset _ _) hp))
      have h1 : processBatch dstat fn (rem.take batchSize)
          = Except.ok (walkVisits dstat (rem.take batchSize)) :=
        processBatch_ok dstat fn _ (fun p hp => h p ((List.take_subset _ _) hp))
      refine ⟨walkVisits dstat (rem.take batchSize) :: gs2, ?_, ?_, ?_, ?_⟩
      · rw [walkLoop, h1]
        simp only [dif_neg hle, hgs2]
      · simp only [List.flatten_cons, hflat, walkVisits]
        rw [← List.filterMap_append, List.take_append_drop]
      · intro g hg
        rcases List.mem_cons.mp hg with hg1 | hg2
        · subst hg1
          calc (walkVisits dstat (rem.take batchSize)).length
              ≤ (rem.take batchSize).length := List.length_filterMap_le _ _
            _ ≤ batchSize := by simp [List.length_take]
        · exact hsz g hg2
      · simp only [List.length_cons, List.length_drop, batchSize] at hcount hle ⊢
        omega

theorem walkLoop_err_head (dstat : String → Except DErr Info) (fn : Info → Option String)
    (pre : List (String × Record)) (p : String × Record)
    (post : List (String × Record)) (e : WErr)
    (hlt : pre.length < batchSize)
    (hok : ∀ q ∈ pre, walkStepOk dstat fn q = true)
    (herr : walkStepErr dstat fn p = some e) :
    walkLoop dstat fn (pre ++ p :: post) = Except.error e := by
  have htake : (pre ++ p :: post).take batchSize
      = pre ++ p :: post.take (batchSize - pre.length - 1) := by
    rw [List.take_append_eq_append_take, List.take_of_length_le (Nat.le_of_lt hlt)]
    congr 1
    rcases hm : batchSize - pre.length with _ | m
    · omega
    · rw [List.take_succ_cons]
      simp
  rw [walkLoop, htake, processBatch_err dstat fn pre p _ e hok herr]

theorem walkLoop_err (dstat : String → Except DErr Info) (fn : Info → Option String) :
    ∀ (N : Nat) (pre : List (String × Record)) (p : String × Record)
      (post : List (String × Record)) (e : WErr),
      pre.length ≤ N →
      (∀ q ∈ pre, walkStepOk dstat fn q = true) →
      walkStepErr dstat fn p = some e →
      walkLoop dstat fn (pre ++ p :: post) = Except.error e := by
  intro N
  induction N with
  | zero =>
    intro pre p post e hN hok herr
    exact walkLoop_err_head dstat fn pre p post e (by simp [batchSize]; omega) hok herr
  | succ N ih =>
    intro pre p post e hN hok herr
    by_cases hlt : pre.length < batchSize
    · exact walkLoop_err_head dstat fn pre p post e hlt hok herr
    · push_neg at hlt
      have hlen : ¬ (pre ++ p :: post).length ≤ batchSize := by
        simp only [List.length_append, List.length_cons]
        omega
      have htake : (pre ++ p :: post).take batchSize = pre.take batchSize :=
        List.take_append_of_le_length hlt
      have hdrop : (pre ++ p :: post).drop batchSize = pre.drop batchSize ++ p :: post :=
        List.drop_append_of_le_length hlt
      have h1 : processBatch dstat fn ((pre ++ p :: post).take batchSize)
          = Except.ok (walkVisits dstat (pre.take batchSize)) := by
        rw [htake]
        exact processBatch_ok dstat fn _ (fun q hq => hok q ((List.take_subset _ _) hq))
      have h2 := ih (pre.drop batchSize) p post e
        (by simp only [List.length_drop, batchSize] at *; omega)
        (fun q hq => hok q ((List.drop_subset _ _) hq)) herr
      rw [walkLoop, h1]
      simp only [dif_neg hlen, hdrop, h2]

/-! ### C8 -/

/-- C8: over a fixed bucket of more than `batchSize` (= 100) records, in
byte-lexicographic name order as bolt's cursor yields them: (i) when every
record is processed without aborting, `Walk` succeeds, visiting exactly the
records whose driver `Stat` succeeds — entries the driver reports NotFound
are silently skipped — once each, in cursor order, collected in
`⌈n / batchSize⌉` per-transaction batches of at most `batchSize` records
each; when the driver `Stat` succeeds everywhere, the visitor sees every
record exactly once, in byte-lexicographic name order.  (ii) a non-NotFound
driver-`Stat` error (all records before it processing cleanly) aborts the
whole walk with that driver error; (iii) an error returned by the visitor
likewise aborts the walk immediately with that visitor error. -/
theorem walk_batches_ordered (dstat : String → Except DErr Info)
    (fn : Info → Option String) (recs : List (String × Record))
    (_hsorted : sortedNames recs = true)
    (hlen : recs.length > batchSize) :
    ((∀ p ∈ recs, walkStepOk dstat fn p = true) →
      ∃ gs, walkLoop dstat fn recs = Except.ok gs ∧
        gs.flatten = walkVisits dstat recs ∧
        ((∀ p ∈ recs, dstatOk (dstat p.2.bkey) = true) →
          gs.flatten.map Info.name = recs.map Prod.fst) ∧
        (∀ g ∈ gs, g.length ≤ batchSize) ∧
        gs.length = (recs.length + (batchSize - 1)) / batchSize) ∧
    (∀ (pre : List (String × Record)) (p : String × Record)
       (post : List (String × Record)) (e : DErr),
      recs = pre ++ p :: post →
      (∀ q ∈ pre, walkStepOk dstat fn q = true) →
      dstat p.2.bkey = Except.error e → e ≠ DErr.notFound →
      walkLoop dstat fn recs = Except.error (WErr.driver e)) ∧
    (∀ (pre : List (String × Record)) (p : String × Record)
       (post : List (String × Record)) (dinfo : Info) (msg : String),
      recs = pre ++ p :: post →
      (∀ q ∈ pre, walkStepOk dstat fn q = true) →
      dstat p.2.bkey = Except.ok dinfo →
      fn (overlayInfo dinfo (recordInfo p.1 p.2)) = some msg →
      walkLoop dstat fn recs = Except.error (WErr.visitor msg)) := by
  refine ⟨?_, ?_, ?_⟩
  · intro hok
    obtain ⟨gs, hgs, hflat, hsz, hcount⟩ :=
      walkLoop_ok dstat fn recs.length recs (Nat.le_refl _) hok
    refine ⟨gs, hgs, hflat, ?_, hsz, ?_⟩
    · intro hall
      rw [hflat]
      exact walkVisits_names dstat recs hall
    · rw [hcount]
      simp only [batchSize] at *
      omega
  · intro pre p post e hdecomp hpre hd hne
    have herr : walkStepErr dstat fn p = some (WErr.driver e) := by
      cases e with
      | notFound => exact absurd rfl hne
      | failedPrecondition => simp [walkStepErr, hd]
      | internal => simp [walkStepErr, hd]
    rw [hdecomp]
    exact walkLoop_err dstat fn pre.length pre p post _ (Nat.le_refl _) hpre herr
  · intro pre p post dinfo msg hdecomp hpre hd hfn
    have herr : walkStepErr dstat fn p = some (WErr.visitor msg) := by
      simp [walkStepErr, hd, hfn]
    rw [hdecomp]
    exact walkLoop_err dstat fn pre.length pre p post _ (Nat.le_refl _) hpre herr

/-- Witness for C8 at a concrete bucket of 110 records: with an
always-succeeding driver and visitor the walk visits all 110 records in two
batches; with a driver failing (non-NotFound) on record `b5`, the walk aborts
with that driver error. -/
theorem walk_batches_ordered_witness :
    (∃ gs, walkLoop (fun _ => Except.ok {}) (fun _ => none) walkRecs = Except.ok gs ∧
      gs.flatten = walkVisits (fun _ => Except.ok {}) walkRecs ∧
      ((∀ p ∈ walkRecs, dstatOk ((fun _ => Except.ok ({} : Info)) p.2.bkey) = true) →
        gs.flatten.map Info.name = walkRecs.map Prod.fst) ∧
      (∀ g ∈ gs, g.length ≤ batchSize) ∧
      gs.length = (walkRecs.length + (batchSize - 1)) / batchSize) ∧
    walkLoop (fun k => if k = ("b5") then Except.error DErr.internal else Except.ok {})
        (fun _ => none) walkRecs
      = Except.error (WErr.driver DErr.internal) := by
  constructor
  · exact (walk_batches_ordered (fun _ => Except.ok {}) (fun _ => none) walkRecs
      (by decide) (by decide)).1 (by decide)
  · exact (walk_batches_ordered
      (fun k => if k = ("b5") then Except.error DErr.internal else Except.ok {})
      (fun _ => none) walkRecs (by decide) (by decide)).2.1
      (walkRecs.take 15) (("b5"), ({ bkey := "b5" } : Record)) (walkRecs.drop 16)
      DErr.internal (by decide) (by decide) (by rfl) (by decide)

end SnapMeta
